import Mathlib

/-!
Verification of the translation cache and batch refresh loop of the
realtime-audio-translation web client.

The definitions below are a shallow embedding of the client code:
the in-memory translation cache and `translateText` (page component,
lines 76–111), the batch refresh pass `translateAllMessages`
(lines 117–158), the render helper `getTranslatedText` (lines 160–180),
the older sequential `translateMessages` loop of `page.tsx`, the
`/api/translate` route handler, and the Firestore `saveTranscription`
hook.  External I/O (fetch, the language-model call, Firestore) is
modelled by explicit outcome parameters; JavaScript truthiness of
optional strings is modelled by `truthy`.
-/

namespace AudioTranslation

/-- Truthiness of a JavaScript value that is either a string or undefined:
`undefined` and the empty string are falsy, every other string is truthy. -/
def truthy : Option String → Bool
  | some s => s ≠ ""
  | none => false

/-- The client cache `translationCache.current : Record<string, string>`:
a finite map from the joined key string to the stored translation. -/
abbrev Cache := String → Option String

/-- The initial cache `{}`. -/
def emptyCache : Cache := fun _ => none

/-- Source line 79: `` const cacheKey = `${text}-${sourceLang}-${targetLang}` ``. -/
def cacheKey (text sourceLang targetLang : String) : String :=
  text ++ "-" ++ sourceLang ++ "-" ++ targetLang

/-- Source line 104: `translationCache.current[cacheKey] = translatedText`. -/
def cacheStore (c : Cache) (k v : String) : Cache :=
  fun q => if q = k then some v else c q

/-- Source lines 82–84: the read `translationCache.current[cacheKey]`,
`none` standing for JavaScript `undefined`. -/
def cacheLookup (c : Cache) (text sourceLang targetLang : String) : Option String :=
  c (cacheKey text sourceLang targetLang)

/-- Outcome of one `fetch('/api/translate')` round trip, seen from the client:
`fail` is a network error, a non-ok status, or a body that fails to parse;
`ok payload` is a parsed body whose `translatedText` field is `payload`
(absent when the field is missing). -/
inductive FetchOutcome where
  | fail
  | ok (payload : Option String)
deriving DecidableEq, Repr

/-- Source line 101: `data.translatedText || text`. -/
def payloadOrFallback (payload : Option String) (text : String) : String :=
  match payload with
  | some s => if s = "" then text else s
  | none => text

/-- Result of one `translateText` call: the returned string, the cache
afterwards, and how many external requests were issued (0 or 1). -/
structure TranslateResult where
  text : String
  cache : Cache
  externalCalls : Nat

/-- Source lines 86–110: the fetch branch of `translateText`.  On failure the
catch block returns the original text and leaves the cache untouched; on
success the value `data.translatedText || text` is stored and returned. -/
def translateFetch (c : Cache) (k text : String) (outcome : FetchOutcome) : TranslateResult :=
  match outcome with
  | .fail => ⟨text, c, 1⟩
  | .ok payload =>
    let t := payloadOrFallback payload text
    ⟨t, cacheStore c k t, 1⟩

/-- Source lines 78–111: `translateText`.  A truthy cached entry is returned
with no external call (lines 82–84); otherwise the external service is
consulted via `translateFetch`. -/
def translateText (c : Cache) (text sourceLang targetLang : String)
    (outcome : FetchOutcome) : TranslateResult :=
  match cacheLookup c text sourceLang targetLang with
  | some v =>
    if v = "" then translateFetch c (cacheKey text sourceLang targetLang) text outcome
    else ⟨v, c, 0⟩
  | none => translateFetch c (cacheKey text sourceLang targetLang) text outcome

/-- One entry of the UI message list (`AudioMessage`): the Firestore fields
relevant to translation plus the optional `translatedText` decoration. -/
structure Message where
  id : String
  senderName : String
  transcription : String
  language : String
  translatedText : Option String
deriving DecidableEq, Repr

/-- Environment of external responses for a pass: the fetch outcome the
translation service would give for each `(text, sourceLang, targetLang)`
request. -/
abbrev Oracle := String → String → String → FetchOutcome

/-- Source line 125, the refresh-pass filter predicate:
`msg.transcription && msg.language !== targetLanguage`. -/
def isCandidate (tgt : String) (m : Message) : Bool :=
  (m.transcription != "") && (m.language != tgt)

/-- Source lines 124–126: `messagesToTranslate`. -/
def candidates (messages : List Message) (tgt : String) : List Message :=
  messages.filter (isCandidate tgt)

/-- Source lines 133–135: the batching of the candidate list by
`slice(i, i + BATCH_SIZE)` for `i = 0, BATCH_SIZE, 2*BATCH_SIZE, …`. -/
def chunkList (n : Nat) : List α → List (List α)
  | [] => []
  | x :: xs =>
    if _h : n = 0 then []
    else (x :: xs).take n :: chunkList n ((x :: xs).drop n)
termination_by l => l.length
decreasing_by
  simp only [List.length_drop, List.length_cons]
  omega

/-- Source line 133: `const BATCH_SIZE = 3`. -/
def BATCH_SIZE : Nat := 3

/-- State carried through a refresh pass: the `updatedMessages` working copy,
the shared cache, and the ids of the messages for which a `translateText`
request has been made so far. -/
structure PassState where
  updatedMessages : List Message
  cache : Cache
  processed : List String

/-- Source lines 143–149: `findIndex(m => m.id === message.id)` followed by
replacement of that one entry with `{ ...entry, translatedText }`; the first
entry with the given id is replaced, and a missing id leaves the list as is. -/
def setTranslatedById (id t : String) : List Message → List Message
  | [] => []
  | m :: rest =>
    if m.id = id then { m with translatedText := some t } :: rest
    else m :: setTranslatedById id t rest

/-- Source lines 136–150: handling of one batch member — call `translateText`
with the message's transcription and language and the pass's captured target,
then merge the result into the working copy. -/
def processMessage (tgt : String) (oracle : Oracle) (st : PassState)
    (message : Message) : PassState :=
  let r := translateText st.cache message.transcription message.language tgt
    (oracle message.transcription message.language tgt)
  { updatedMessages := setTranslatedById message.id r.text st.updatedMessages
    cache := r.cache
    processed := st.processed ++ [message.id] }

/-- Source lines 123–155: `translateAllMessages`.  The candidate list is cut
into batches of `BATCH_SIZE`; each batch is awaited before the next starts
(the fold over batches), and after each batch the working copy is published
with `setMessages`.  The model linearises each batch in list order, which is
one admissible ordering of the single-threaded event loop. -/
def translateAllMessages (messages : List Message) (tgt : String) (c : Cache)
    (oracle : Oracle) : PassState :=
  (chunkList BATCH_SIZE (candidates messages tgt)).foldl
    (fun st batch => batch.foldl (processMessage tgt oracle) st)
    ⟨messages, c, []⟩

/-- The message list visible to the UI after a refresh pass that captured
`passTarget` finishes merging, while the user's current selection is
`curTarget`.  The source merge (lines 143–153 and the unconditional
`setMessages`) never consults the current selection, which is why
`curTarget` does not occur on the right-hand side. -/
def mergedAfterPass (passTarget curTarget : String) (messages : List Message)
    (c : Cache) (oracle : Oracle) : List Message :=
  (translateAllMessages messages passTarget c oracle).updatedMessages

/-- The joined cache key a message's refresh request uses. -/
def keyOf (tgt : String) (m : Message) : String :=
  cacheKey m.transcription m.language tgt

/-- The text a fresh (non-cached) request for this message yields under the
given oracle: the payload when truthy, the original transcription otherwise. -/
def freshResult (oracle : Oracle) (tgt : String) (m : Message) : String :=
  match oracle m.transcription m.language tgt with
  | .fail => m.transcription
  | .ok payload => payloadOrFallback payload m.transcription

/-- The translation a refresh pass computes for a candidate message, given the
cache `c` at the start of the pass: the truthy cached value if present, the
fresh request's result otherwise. -/
def expectedText (c : Cache) (oracle : Oracle) (tgt : String) (m : Message) : String :=
  match c (keyOf tgt m) with
  | some v => if v = "" then freshResult oracle tgt m else v
  | none => freshResult oracle tgt m

/-- How one pass transforms one message: candidates receive
`expectedText` as their `translatedText`, all other messages are untouched. -/
def passUpdate (c : Cache) (oracle : Oracle) (tgt : String) (m : Message) : Message :=
  if isCandidate tgt m then { m with translatedText := some (expectedText c oracle tgt m) }
  else m

/-- First match of an id in a message list, as the UI's `find`-style access. -/
def findById (id : String) (l : List Message) : Option Message :=
  l.find? (fun x => x.id == id)

/-- Key discipline within one pass: any two candidates that share a joined
cache key agree on the fields the key was built from.  (This rules out the
hyphen-collision of `cache_key_collision_cex` among the pass's requests.) -/
def keyConsistent (cs : List Message) (tgt : String) : Prop :=
  ∀ m ∈ cs, ∀ m' ∈ cs, keyOf tgt m = keyOf tgt m' →
    m.transcription = m'.transcription ∧ m.language = m'.language

instance (cs : List Message) (tgt : String) : Decidable (keyConsistent cs tgt) := by
  unfold keyConsistent
  infer_instance

/-- Invariant of the shared cache during a pass that started with cache `c0`:
every key either still holds its initial value, or was filled by one of the
pass's own requests with that request's fresh result (only keys whose initial
value was falsy are ever written). -/
def cacheInv (cs : List Message) (tgt : String) (c0 : Cache) (oracle : Oracle)
    (c : Cache) : Prop :=
  ∀ k, c k = c0 k
    ∨ ∃ m ∈ cs, keyOf tgt m = k ∧ truthy (c0 k) = false
        ∧ c k = some (freshResult oracle tgt m)

/-- Partial view of the pass's working copy: the messages whose id is among
the already-processed candidates `done` carry their expected translation. -/
def updateForDone (c0 : Cache) (oracle : Oracle) (tgt : String) (done : List Message)
    (m : Message) : Message :=
  if m.id ∈ done.map Message.id then
    { m with translatedText := some (expectedText c0 oracle tgt m) }
  else m

/-- One message of the stale-discard scenario: an English message awaiting
translation. -/
def staleMsg : Message := ⟨"1", "amina", "Hello", "en", none⟩

/-- Message list of the stale-discard scenario. -/
def staleMsgs : List Message := [staleMsg]

/-- Translation-service behaviour in the stale-discard scenario: every request
succeeds with the Hausa translation "Sannu". -/
def staleOracle : Oracle := fun _ _ _ => FetchOutcome.ok (some "Sannu")

/-- Message with empty transcription and no translation: the frozen claim's
candidate description includes it, the code's filter skips it. -/
def skipMsg : Message := ⟨"1", "bello", "", "en", none⟩

/-- Message already holding the current target's translation: the frozen
claim says it must not be re-requested, the code's filter re-requests it. -/
def doneMsg : Message := ⟨"2", "amina", "Hello", "en", some "Sannu"⟩

/-- Oracle of the candidate-set scenario: every request succeeds with
"Sannu", so `doneMsg`'s stored text equals the current pass's result. -/
def candOracle : Oracle := fun _ _ _ => FetchOutcome.ok (some "Sannu")

/-- Message of the failure scenario: English, no translation yet. -/
def failMsg : Message := ⟨"1", "amina", "Hello", "en", none⟩

/-- Translation-service behaviour of the failure scenario: every request
fails (network error, non-ok status, or malformed body). -/
def failOracle : Oracle := fun _ _ _ => FetchOutcome.fail

/-- Request-level events of a refresh pass: a translation request is
issued for a message, or its response arrives. -/
inductive Event where
  | issue (id : String)
  | complete (id : String)
deriving DecidableEq, Repr

/-- Event trace of one batch under `Promise.all`: every request of the batch
is issued synchronously when the batch starts (the `batch.map(async …)` call
runs each closure up to its first await at once), and the batch is only left
once every response has arrived.  All issues precede all completions — the
worst case for the number of requests simultaneously in flight. -/
def batchTrace (b : List Message) : List Event :=
  b.map (fun m => Event.issue m.id) ++ b.map (fun m => Event.complete m.id)

/-- Concatenated traces of a list of batches: the `await Promise.all` in the
loop body guarantees batch `N+1` starts only after batch `N` completed. -/
def tracesOf : List (List Message) → List Event
  | [] => []
  | b :: rest => batchTrace b ++ tracesOf rest

/-- Event trace of the refresh pass's own batched requests (source lines
132–154).  This trace contains only the requests `translateAllMessages`
issues itself; the background fetches that `getTranslatedText` fires at each
render are modelled separately by `renderTrace` and run concurrently with
this trace. -/
def passTrace (messages : List Message) (tgt : String) : List Event :=
  tracesOf (chunkList BATCH_SIZE (candidates messages tgt))

/-- Number of requests issued within a trace segment. -/
def issueCount : List Event → Nat
  | [] => 0
  | Event.issue _ :: rest => issueCount rest + 1
  | Event.complete _ :: rest => issueCount rest

/-- Number of responses arrived within a trace segment. -/
def completeCount : List Event → Nat
  | [] => 0
  | Event.issue _ :: rest => completeCount rest
  | Event.complete _ :: rest => completeCount rest + 1

/-- Four pending messages of the batch-bound scenario: more than one batch. -/
def boundMsgs : List Message :=
  [⟨"1", "a", "One", "en", none⟩, ⟨"2", "b", "Two", "en", none⟩,
   ⟨"3", "c", "Three", "en", none⟩, ⟨"4", "d", "Four", "en", none⟩]

/-- What one render of a message produces: the displayed string, and whether
the render fired a background `translateText` call. -/
structure RenderResult where
  display : String
  triggersTranslate : Bool
deriving DecidableEq, Repr

/-- Source lines 160–180: `getTranslatedText`.  A message with empty
transcription or already in the target language is displayed as its
transcription with no cache or network activity; otherwise a background
translation is fired when `translatedText` is falsy, and the display falls
back to the transcription until a truthy translation exists. -/
def getTranslatedText (tgt : String) (m : Message) : RenderResult :=
  if m.transcription = "" ∨ m.language = tgt then
    ⟨m.transcription, false⟩
  else
    ⟨match m.translatedText with
      | some t => if t = "" then m.transcription else t
      | none => m.transcription,
     !truthy m.translatedText⟩

/-- Processing of one message by the older sequential `translateMessages`
loop of `page.tsx` (lines 93–126): skip when already translated or without
transcription; set `translatedText := transcription` directly when the
message is already in the target language (no call); otherwise call the
2-argument `translateText` (no cache in this version) and store its result.
Returns the updated message and the number of external calls made for it. -/
def pageProcessOne (tgt : String) (oracle : String → String → FetchOutcome)
    (m : Message) : Message × Nat :=
  if truthy m.translatedText || (m.transcription == "") then (m, 0)
  else if m.language = tgt then ({ m with translatedText := some m.transcription }, 0)
  else
    let r := match oracle m.transcription tgt with
      | .fail => m.transcription
      | .ok payload => payloadOrFallback payload m.transcription
    ({ m with translatedText := some r }, 1)

/-- The whole older loop: each message is handled independently; the total
external-call count is the sum over messages. -/
def pageTranslateMessages (messages : List Message) (tgt : String)
    (oracle : String → String → FetchOutcome) : List Message × Nat :=
  (messages.map (fun m => (pageProcessOne tgt oracle m).1),
   (messages.map (fun m => (pageProcessOne tgt oracle m).2)).sum)

/-- Parsed JSON body of a POST to `/api/translate`; each field may be absent
(`undefined` after destructuring). -/
structure TranslateRequestBody where
  transcript : Option String
  sourceLanguage : Option String
  targetLanguage : Option String
deriving DecidableEq, Repr

/-- Outcome of the `openai.chat.completions.create` call:
`ok content` is a response whose `choices[0]?.message?.content` is `content`;
`exn` is a thrown error. -/
inductive ModelOutcome where
  | ok (content : Option String)
  | exn
deriving DecidableEq, Repr

/-- Response of the route handler, together with how many model calls were
issued while producing it. -/
structure RouteResponse where
  status : Nat
  translatedText : Option String
  error : Option String
  modelCalls : Nat
deriving DecidableEq, Repr

/-- Source `src/app/api/translate/route.ts`, lines 10–60: the POST handler.
`none` for the body models a `request.json()` that throws (caught by the
outer try, status 500).  A body with a falsy `transcript`, `sourceLanguage`
or `targetLanguage` is rejected with status 400 before the model is called.
A model exception is caught and mapped to status 500. -/
def translateRoutePOST (body : Option TranslateRequestBody)
    (model : ModelOutcome) : RouteResponse :=
  match body with
  | none =>
    { status := 500, translatedText := none
      error := some "Failed to process translation", modelCalls := 0 }
  | some b =>
    if truthy b.transcript = false ∨ truthy b.sourceLanguage = false
        ∨ truthy b.targetLanguage = false then
      { status := 400, translatedText := none
        error := some "Transcript, sourceLanguage, and targetLanguage are required"
        modelCalls := 0 }
    else
      match model with
      | .exn =>
        { status := 500, translatedText := none
          error := some "Failed to process translation", modelCalls := 1 }
      | .ok content =>
        { status := 200, translatedText := some ((content.getD "").trim)
          error := none, modelCalls := 1 }

/-- Argument of `saveTranscription` (the `TranscriptionData` fields without
the server-side date). -/
structure SaveInput where
  senderName : String
  transcription : String
  language : String
deriving DecidableEq, Repr

/-- The state the Firestore hook touches: the documents of the
`transcriptions` collection and the hook's `error` state. -/
structure FirebaseState where
  savedDocs : List SaveInput
  errorMsg : Option String
deriving DecidableEq, Repr

/-- Outcome of the `addDoc` call: a created document id, or a throw. -/
inductive AddDocOutcome where
  | ok (docId : String)
  | exn
deriving DecidableEq, Repr

/-- Source `useFirebaseHook`, lines 25–58: `saveTranscription`.  Returns the
new document id, or `null` (`none`) on the server side, without an
initialised database, on empty required fields, or on an `addDoc` throw. -/
def saveTranscription (isClient dbReady : Bool) (st : FirebaseState)
    (data : SaveInput) (outcome : AddDocOutcome) : Option String × FirebaseState :=
  if isClient = false then (none, st)
  else if dbReady = false then (none, st)
  else if data.senderName = "" ∨ data.transcription = "" then
    (none, { st with errorMsg := some "Sender name and transcription are required" })
  else
    match outcome with
    | .ok docId => (some docId, { savedDocs := st.savedDocs ++ [data], errorMsg := none })
    | .exn => (none, { savedDocs := st.savedDocs
                       errorMsg := some "Failed to save transcription" })

/-- The messages for which one render of the conversation list fires a
background translation request: the list render (source lines 335–344) calls
`getTranslatedText` on every message, and each call whose message is
untranslated for the current target triggers a `translateText` fetch
(source lines 166–176). -/
def renderTriggered (messages : List Message) (tgt : String) : List Message :=
  messages.filter (fun m => (getTranslatedText tgt m).triggersTranslate)

/-- Issue events of the fetches fired by one render.  Their responses arrive
whenever the network answers, so an instant at which none of them has
completed is admissible. -/
def renderTrace (messages : List Message) (tgt : String) : List Event :=
  (renderTriggered messages tgt).map (fun m => Event.issue m.id)

/-- Request trace of the target-change scenario: changing the selection
re-renders the list first (React renders before effects run), firing one
background fetch per still-untranslated message, and only then does the
`useEffect` refresh pass start its batches.  The interleaving in which the
render fetches are still pending while the pass issues its batches is
admissible. -/
def combinedTrace (messages : List Message) (tgt : String) : List Event :=
  renderTrace messages tgt ++ passTrace messages tgt

/-- Claim C3 counterexample: the cache is keyed by the hyphen-joined string,
not by the exact triple.  Storing under the triple `("a-b", "c", "d")` makes a
lookup of the distinct triple `("a", "b-c", "d")` — under which nothing was
ever stored — return the stored value. -/
theorem cache_key_collision_cex :
    cacheLookup (cacheStore emptyCache (cacheKey "a-b" "c" "d") "X") "a" "b-c" "d" = some "X"
      ∧ ("a", "b-c", "d") ≠ (("a-b", "c", "d") : String × String × String) := by
  constructor
  · decide
  · decide

/-- Claim C3 (amended): the cache is keyed by the joined string
`text ++ "-" ++ src ++ "-" ++ tgt`.  After a store, a lookup of the same
triple returns the stored value, and a lookup of any triple whose joined key
differs is unaffected by the store; lookup is a pure read.  Distinct triples
whose joined keys coincide share one entry. -/
theorem cache_triple_semantics (c : Cache) (text src tgt v : String) :
    cacheLookup (cacheStore c (cacheKey text src tgt) v) text src tgt = some v
      ∧ (∀ t' s' g', cacheKey t' s' g' ≠ cacheKey text src tgt →
          cacheLookup (cacheStore c (cacheKey text src tgt) v) t' s' g'
            = cacheLookup c t' s' g') := by
  refine ⟨?_, ?_⟩
  · simp [cacheLookup, cacheStore]
  · intro t' s' g' h
    simp [cacheLookup, cacheStore, h]

/-- Witness for `cache_triple_semantics` at a concrete store and two lookups. -/
theorem cache_triple_semantics_witness :
    cacheLookup (cacheStore emptyCache (cacheKey "Hello" "en" "ha") "Sannu") "Hello" "en" "ha"
        = some "Sannu"
      ∧ cacheLookup (cacheStore emptyCache (cacheKey "Hello" "en" "ha") "Sannu") "Bye" "en" "ha"
        = cacheLookup emptyCache "Bye" "en" "ha" :=
  ⟨(cache_triple_semantics emptyCache "Hello" "en" "ha" "Sannu").1,
   (cache_triple_semantics emptyCache "Hello" "en" "ha" "Sannu").2 "Bye" "en" "ha" (by decide)⟩

/-- Claim C8: the cache store is idempotent — storing the same value twice
under the same triple leaves the very same cache — and last-write-wins:
after storing `v` and then `w` under one triple, lookup returns `w`. -/
theorem cache_store_idempotent_lww (c : Cache) (text src tgt v w : String) :
    cacheStore (cacheStore c (cacheKey text src tgt) v) (cacheKey text src tgt) v
        = cacheStore c (cacheKey text src tgt) v
      ∧ cacheLookup
          (cacheStore (cacheStore c (cacheKey text src tgt) v) (cacheKey text src tgt) w)
          text src tgt = some w := by
  constructor
  · funext q
    by_cases h : q = cacheKey text src tgt <;> simp [cacheStore, h]
  · simp [cacheLookup, cacheStore]

/-- Claim C4: a truthy cache hit short-circuits `translateText`: the cached
value is returned as the result, the cache is unchanged, and zero external
requests are issued. -/
theorem cache_hit_no_external (c : Cache) (text src tgt v : String) (outcome : FetchOutcome)
    (hv : cacheLookup c text src tgt = some v) (hne : v ≠ "") :
    translateText c text src tgt outcome = ⟨v, c, 0⟩ := by
  unfold translateText
  rw [hv]
  simp [hne]

/-- Witness for `cache_hit_no_external`: a concrete cache holding the key
`("Hello", "en", "ha")` answers from the cache. -/
theorem cache_hit_no_external_witness :
    cacheLookup (cacheStore emptyCache (cacheKey "Hello" "en" "ha") "Sannu") "Hello" "en" "ha"
        = some "Sannu"
      ∧ ("Sannu" : String) ≠ ""
      ∧ translateText (cacheStore emptyCache (cacheKey "Hello" "en" "ha") "Sannu")
          "Hello" "en" "ha" FetchOutcome.fail
        = ⟨"Sannu", cacheStore emptyCache (cacheKey "Hello" "en" "ha") "Sannu", 0⟩ :=
  ⟨by decide, by decide,
   cache_hit_no_external (cacheStore emptyCache (cacheKey "Hello" "en" "ha") "Sannu")
     "Hello" "en" "ha" "Sannu" FetchOutcome.fail (by decide) (by decide)⟩

/-- A truthy-false optional string is `undefined` or the empty string. -/
theorem truthy_eq_false_iff (o : Option String) :
    truthy o = false ↔ o = none ∨ o = some "" := by
  cases o with
  | none => simp [truthy]
  | some s => by_cases hs : s = "" <;> simp [truthy, hs]

/-- Unfolding of the refresh-pass filter predicate. -/
theorem isCandidate_iff (tgt : String) (m : Message) :
    isCandidate tgt m = true ↔ m.transcription ≠ "" ∧ m.language ≠ tgt := by
  simp [isCandidate]

/-- A fresh request for a message with non-empty transcription never yields
the empty string: the payload branch is guarded and the fallback is the
transcription itself. -/
theorem freshResult_ne_empty (oracle : Oracle) (tgt : String) (m : Message)
    (h : m.transcription ≠ "") : freshResult oracle tgt m ≠ "" := by
  unfold freshResult
  cases oracle m.transcription m.language tgt with
  | fail => exact h
  | ok payload =>
    cases payload with
    | none => simpa [payloadOrFallback] using h
    | some s =>
      simp only [payloadOrFallback]
      by_cases hs : s = ""
      · simpa [hs] using h
      · simpa [hs] using hs

/-- The fresh result depends only on the transcription and language fields. -/
theorem freshResult_congr (oracle : Oracle) (tgt : String) (m m' : Message)
    (ht : m.transcription = m'.transcription) (hl : m.language = m'.language) :
    freshResult oracle tgt m = freshResult oracle tgt m' := by
  unfold freshResult
  rw [ht, hl]

/-- Stability of one `translateText` step under the cache invariant: the call
for a candidate returns exactly `expectedText` of the initial cache, and the
invariant is preserved. -/
theorem translateText_stable (cs : List Message) (tgt : String) (c0 : Cache)
    (oracle : Oracle) (hkeys : keyConsistent cs tgt) (c : Cache)
    (hInv : cacheInv cs tgt c0 oracle c) (x : Message) (hx : x ∈ cs)
    (hxt : x.transcription ≠ "") :
    (translateText c x.transcription x.language tgt
        (oracle x.transcription x.language tgt)).text
        = expectedText c0 oracle tgt x
      ∧ cacheInv cs tgt c0 oracle
          (translateText c x.transcription x.language tgt
            (oracle x.transcription x.language tgt)).cache := by
  have hlk : cacheLookup c x.transcription x.language tgt = c (keyOf tgt x) := rfl
  rcases hInv (keyOf tgt x) with hck | ⟨m, hm, hkm, htr, hcm⟩
  · -- the key still holds its initial value
    cases hc0 : c0 (keyOf tgt x) with
    | none =>
      have hsc : cacheLookup c x.transcription x.language tgt = none := by
        rw [hlk, hck, hc0]
      unfold translateText
      rw [hsc]
      have hexp : expectedText c0 oracle tgt x = freshResult oracle tgt x := by
        unfold expectedText
        rw [hc0]
      cases ho : oracle x.transcription x.language tgt with
      | fail =>
        refine ⟨?_, ?_⟩
        · simp [translateFetch, hexp, freshResult, ho]
        · simpa [translateFetch] using hInv
      | ok payload =>
        refine ⟨?_, ?_⟩
        · simp [translateFetch, hexp, freshResult, ho]
        · simp only [translateFetch]
          intro k'
          by_cases hk' : k' = keyOf tgt x
          · subst hk'
            refine Or.inr ⟨x, hx, rfl, ?_, ?_⟩
            · rw [hc0]; rfl
            · simp [cacheStore, keyOf, freshResult, ho]
          · have hk2 : ¬ k' = cacheKey x.transcription x.language tgt := hk'
            rcases hInv k' with h | ⟨m', hm', hkm', htr', hcm'⟩
            · exact Or.inl (by simpa [cacheStore, hk2] using h)
            · exact Or.inr ⟨m', hm', hkm', htr', by simpa [cacheStore, hk2] using hcm'⟩
    | some v =>
      by_cases hv : v = ""
      · subst hv
        have hsc : cacheLookup c x.transcription x.language tgt = some "" := by
          rw [hlk, hck, hc0]
        unfold translateText
        rw [hsc]
        simp only [if_pos rfl]
        have hexp : expectedText c0 oracle tgt x = freshResult oracle tgt x := by
          unfold expectedText
          rw [hc0]
          simp
        cases ho : oracle x.transcription x.language tgt with
        | fail =>
          refine ⟨?_, ?_⟩
          · simp [translateFetch, hexp, freshResult, ho]
          · simpa [translateFetch] using hInv
        | ok payload =>
          refine ⟨?_, ?_⟩
          · simp [translateFetch, hexp, freshResult, ho]
          · simp only [translateFetch]
            intro k'
            by_cases hk' : k' = keyOf tgt x
            · subst hk'
              refine Or.inr ⟨x, hx, rfl, ?_, ?_⟩
              · rw [hc0]; simp [truthy]
              · simp [cacheStore, keyOf, freshResult, ho]
            · have hk2 : ¬ k' = cacheKey x.transcription x.language tgt := hk'
              rcases hInv k' with h | ⟨m', hm', hkm', htr', hcm'⟩
              · exact Or.inl (by simpa [cacheStore, hk2] using h)
              · exact Or.inr ⟨m', hm', hkm', htr', by simpa [cacheStore, hk2] using hcm'⟩
      · have hsc : cacheLookup c x.transcription x.language tgt = some v := by
          rw [hlk, hck, hc0]
        unfold translateText
        rw [hsc]
        simp only [if_neg hv]
        refine ⟨?_, hInv⟩
        unfold expectedText
        rw [hc0]
        simp [hv]
  · -- the key was filled by an earlier request of this pass
    have hfields := hkeys m hm x hx hkm
    have hfr : freshResult oracle tgt m = freshResult oracle tgt x :=
      freshResult_congr oracle tgt m x hfields.1 hfields.2
    have hne : freshResult oracle tgt x ≠ "" := freshResult_ne_empty oracle tgt x hxt
    have hsc : cacheLookup c x.transcription x.language tgt
        = some (freshResult oracle tgt x) := by
      rw [hlk, hcm, hfr]
    unfold translateText
    rw [hsc]
    simp only [if_neg hne]
    refine ⟨?_, hInv⟩
    rcases (truthy_eq_false_iff (c0 (keyOf tgt x))).mp htr with h0 | h0
    · unfold expectedText
      rw [h0]
    · unfold expectedText
      rw [h0]
      simp

/-- Replacing the first id-match inside a mapped list, when ids are unique and
the mapping preserves ids, is the same as switching to a pointwise-updated
mapping. -/
theorem setTranslatedById_map (l : List Message) (f g : Message → Message)
    (x : Message) (t : String) (hx : x ∈ l)
    (hnd : (l.map Message.id).Nodup)
    (hf : ∀ m, (f m).id = m.id)
    (hfg : ∀ m ∈ l, m.id ≠ x.id → f m = g m)
    (hgx : ∀ m ∈ l, m.id = x.id → g m = { f m with translatedText := some t }) :
    setTranslatedById x.id t (l.map f) = l.map g := by
  induction l with
  | nil => rfl
  | cons m rest ih =>
    simp only [List.map_cons] at hnd ⊢
    have hnd1 : m.id ∉ rest.map Message.id := (List.nodup_cons.mp hnd).1
    have hnd2 : (rest.map Message.id).Nodup := (List.nodup_cons.mp hnd).2
    simp only [setTranslatedById]
    by_cases hid : (f m).id = x.id
    · rw [if_pos hid]
      have hmx : m.id = x.id := by rw [← hf m]; exact hid
      have hrest : rest.map f = rest.map g := by
        apply List.map_congr_left
        intro m' hm'
        refine hfg m' (List.mem_cons_of_mem m hm') ?_
        intro hcon
        exact hnd1 (by rw [hmx, ← hcon]; exact List.mem_map_of_mem Message.id hm')
      rw [hrest, (hgx m (List.mem_cons_self m rest) hmx)]
    · rw [if_neg hid]
      have hmx : m.id ≠ x.id := fun h => hid (by rw [hf m]; exact h)
      have hxrest : x ∈ rest := by
        rcases List.mem_cons.mp hx with h | h
        · exact absurd (congrArg Message.id h.symm) hmx
        · exact h
      rw [hfg m (List.mem_cons_self m rest) hmx]
      rw [ih hxrest hnd2 (fun m' hm' h => hfg m' (List.mem_cons_of_mem m hm') h)
        (fun m' hm' h => hgx m' (List.mem_cons_of_mem m hm') h)]

/-- Looking an id up in a mapped list with unique ids finds the image of the
unique original holder of that id. -/
theorem findById_map (l : List Message) (f : Message → Message) (x : Message)
    (hx : x ∈ l) (hnd : (l.map Message.id).Nodup) (hf : ∀ m, (f m).id = m.id) :
    findById x.id (l.map f) = some (f x) := by
  induction l with
  | nil => cases hx
  | cons m rest ih =>
    simp only [List.map_cons] at hnd ⊢
    have hnd1 : m.id ∉ rest.map Message.id := (List.nodup_cons.mp hnd).1
    have hnd2 : (rest.map Message.id).Nodup := (List.nodup_cons.mp hnd).2
    unfold findById
    by_cases hid : m.id = x.id
    · have hmx : m = x := by
        rcases List.mem_cons.mp hx with h | h
        · exact h.symm
        · exact absurd hid (fun hcon =>
            hnd1 (by rw [hcon]; exact List.mem_map_of_mem Message.id h))
      subst hmx
      rw [List.find?_cons_of_pos]
      simp [hf]
    · have hxrest : x ∈ rest := by
        rcases List.mem_cons.mp hx with h | h
        · exact absurd (congrArg Message.id h.symm) hid
        · exact h
      rw [List.find?_cons_of_neg]
      · exact ih hxrest hnd2
      · simp [hf, hid]

/-- Every batch produced by the slicing has at most `n` elements. -/
theorem chunkList_length_le {α : Type} (n : Nat) (l : List α) :
    ∀ b ∈ chunkList n l, b.length ≤ n := by
  have main : ∀ (k : Nat) (l : List α), l.length = k → ∀ b ∈ chunkList n l, b.length ≤ n := by
    intro k
    induction k using Nat.strong_induction_on with
    | _ k ih =>
      intro l hl b hb
      cases l with
      | nil => simp [chunkList] at hb
      | cons x xs =>
        by_cases hn : n = 0
        · rw [chunkList, dif_pos hn] at hb
          cases hb
        · rw [chunkList, dif_neg hn] at hb
          rcases List.mem_cons.mp hb with h | h
          · subst h
            simp only [List.length_take]
            exact Nat.min_le_left n _
          · refine ih (((x :: xs).drop n).length) ?_ _ rfl b h
            subst hl
            simp only [List.length_drop, List.length_cons]
            omega
  exact main l.length l rfl

/-- Folding batch-by-batch over the slices is folding over the whole list:
the batching changes scheduling, not the sequence of merges. -/
theorem chunkList_foldl {α β : Type} (n : Nat) (hn : n ≠ 0) (f : β → α → β) :
    ∀ (l : List α) (init : β),
      (chunkList n l).foldl (fun st b => b.foldl f st) init = l.foldl f init := by
  have main : ∀ (k : Nat) (l : List α), l.length = k → ∀ init,
      (chunkList n l).foldl (fun st b => b.foldl f st) init = l.foldl f init := by
    intro k
    induction k using Nat.strong_induction_on with
    | _ k ih =>
      intro l hl init
      cases l with
      | nil => simp [chunkList]
      | cons x xs =>
        rw [chunkList, dif_neg hn]
        have hdrop := ih (((x :: xs).drop n).length)
          (by subst hl; simp only [List.length_drop, List.length_cons]; omega)
          ((x :: xs).drop n) rfl
        conv_rhs => rw [← List.take_append_drop n (x :: xs)]
        rw [List.foldl_append]
        simp only [List.foldl_cons]
        exact hdrop _
  intro l init
  exact main l.length l rfl init

/-- Main induction for the refresh pass: folding `processMessage` over the
remaining candidates turns the partial working copy for `done` into the one
for `done ++ todo`, preserving the cache invariant along the way. -/
theorem foldl_processMessage_char (messages : List Message) (tgt : String)
    (c0 : Cache) (oracle : Oracle)
    (hids : (messages.map Message.id).Nodup)
    (hkeys : keyConsistent (candidates messages tgt) tgt) :
    ∀ (todo done : List Message) (c : Cache) (ps : List String),
      done ++ todo = candidates messages tgt →
      cacheInv (candidates messages tgt) tgt c0 oracle c →
      ((todo.foldl (processMessage tgt oracle)
          ⟨messages.map (updateForDone c0 oracle tgt done), c, ps⟩).updatedMessages
          = messages.map (updateForDone c0 oracle tgt (done ++ todo)))
        ∧ cacheInv (candidates messages tgt) tgt c0 oracle
            (todo.foldl (processMessage tgt oracle)
              ⟨messages.map (updateForDone c0 oracle tgt done), c, ps⟩).cache := by
  intro todo
  induction todo with
  | nil =>
    intro done c ps _hsplit hInv
    refine ⟨?_, ?_⟩
    · simp
    · simpa using hInv
  | cons x rest ih =>
    intro done c ps hsplit hInv
    have hxcand : x ∈ candidates messages tgt := by
      rw [← hsplit]
      exact List.mem_append.mpr (Or.inr (List.mem_cons_self x rest))
    have hxmsg : x ∈ messages := (List.mem_filter.mp hxcand).1
    have hxc : isCandidate tgt x = true := (List.mem_filter.mp hxcand).2
    have hxt : x.transcription ≠ "" := ((isCandidate_iff tgt x).mp hxc).1
    have hstep := translateText_stable (candidates messages tgt) tgt c0 oracle hkeys c
      hInv x hxcand hxt
    have hproc : processMessage tgt oracle
        ⟨messages.map (updateForDone c0 oracle tgt done), c, ps⟩ x
        = ⟨setTranslatedById x.id (expectedText c0 oracle tgt x)
             (messages.map (updateForDone c0 oracle tgt done)),
           (translateText c x.transcription x.language tgt
             (oracle x.transcription x.language tgt)).cache,
           ps ++ [x.id]⟩ := by
      simp only [processMessage]
      rw [hstep.1]
    have hset : setTranslatedById x.id (expectedText c0 oracle tgt x)
        (messages.map (updateForDone c0 oracle tgt done))
        = messages.map (updateForDone c0 oracle tgt (done ++ [x])) := by
      apply setTranslatedById_map messages _ _ x _ hxmsg hids
      · intro m
        unfold updateForDone
        by_cases h : m.id ∈ done.map Message.id <;> simp [h]
      · intro m _hm hne
        unfold updateForDone
        have hmem : (m.id ∈ (done ++ [x]).map Message.id)
            ↔ (m.id ∈ done.map Message.id) := by
          simp [hne]
        by_cases h : m.id ∈ done.map Message.id
        · rw [if_pos h, if_pos (hmem.mpr h)]
        · rw [if_neg h, if_neg (fun hc => h (hmem.mp hc))]
      · intro m hm heq
        have hmx : m = x := List.inj_on_of_nodup_map hids hm hxmsg heq
        rw [hmx]
        unfold updateForDone
        have hx2 : x.id ∈ (done ++ [x]).map Message.id := by simp
        rw [if_pos hx2]
        by_cases h : x.id ∈ done.map Message.id
        · rw [if_pos h]
        · rw [if_neg h]
    simp only [List.foldl_cons]
    rw [hproc, hset]
    have hsplit' : (done ++ [x]) ++ rest = candidates messages tgt := by
      rw [List.append_assoc, List.singleton_append]
      exact hsplit
    have hrest := ih (done ++ [x])
      (translateText c x.transcription x.language tgt
        (oracle x.transcription x.language tgt)).cache
      (ps ++ [x.id]) hsplit' hstep.2
    refine ⟨?_, hrest.2⟩
    rw [hrest.1, List.append_assoc, List.singleton_append]

/-- A message's id occurs among the candidates' ids exactly when the message
itself is a candidate, provided ids are unique. -/
theorem mem_candidates_ids_iff (messages : List Message) (tgt : String)
    (hids : (messages.map Message.id).Nodup) (m : Message) (hm : m ∈ messages) :
    m.id ∈ (candidates messages tgt).map Message.id ↔ isCandidate tgt m = true := by
  constructor
  · intro h
    rcases List.mem_map.mp h with ⟨y, hy, hyid⟩
    have hymsg : y ∈ messages := (List.mem_filter.mp hy).1
    have : y = m := List.inj_on_of_nodup_map hids hymsg hm hyid
    subst this
    exact (List.mem_filter.mp hy).2
  · intro h
    exact List.mem_map_of_mem Message.id (List.mem_filter.mpr ⟨hm, h⟩)

/-- Full characterisation of a refresh pass: with unique message ids and
collision-free keys among the pass's candidates, the pass's final working
copy is the original list with every candidate's `translatedText` set to its
`expectedText` and every other message untouched. -/
theorem translateAllMessages_eq_map (messages : List Message) (tgt : String)
    (c0 : Cache) (oracle : Oracle)
    (hids : (messages.map Message.id).Nodup)
    (hkeys : keyConsistent (candidates messages tgt) tgt) :
    (translateAllMessages messages tgt c0 oracle).updatedMessages
      = messages.map (passUpdate c0 oracle tgt) := by
  unfold translateAllMessages
  rw [chunkList_foldl BATCH_SIZE (by decide) (processMessage tgt oracle)]
  have h0 : messages.map (updateForDone c0 oracle tgt []) = messages := by
    have h1 : messages.map (updateForDone c0 oracle tgt [])
        = messages.map (fun m => m) := by
      apply List.map_congr_left
      intro m _
      simp [updateForDone]
    rw [h1]
    simp
  have hInv0 : cacheInv (candidates messages tgt) tgt c0 oracle c0 :=
    fun _ => Or.inl rfl
  have hchar := foldl_processMessage_char messages tgt c0 oracle hids hkeys
    (candidates messages tgt) [] c0 [] rfl hInv0
  rw [h0] at hchar
  rw [hchar.1]
  apply List.map_congr_left
  intro m hm
  unfold updateForDone passUpdate
  simp only [List.nil_append]
  by_cases hc : isCandidate tgt m = true
  · rw [if_pos ((mem_candidates_ids_iff messages tgt hids m hm).mpr hc), if_pos hc]
  · rw [if_neg (fun h => hc ((mem_candidates_ids_iff messages tgt hids m hm).mp h)),
      if_neg hc]

/-- Folding the pass appends exactly the processed ids, in order. -/
theorem foldl_processMessage_processed (tgt : String) (oracle : Oracle) :
    ∀ (l : List Message) (st : PassState),
      (l.foldl (processMessage tgt oracle) st).processed
        = st.processed ++ l.map Message.id := by
  intro l
  induction l with
  | nil => intro st; simp
  | cons x rest ih =>
    intro st
    simp only [List.foldl_cons, List.map_cons]
    rw [ih]
    simp [processMessage]

/-- The refresh pass makes a `translateText` request exactly for the
candidate messages, in list order. -/
theorem translateAllMessages_processed (messages : List Message) (tgt : String)
    (c0 : Cache) (oracle : Oracle) :
    (translateAllMessages messages tgt c0 oracle).processed
      = (candidates messages tgt).map Message.id := by
  unfold translateAllMessages
  rw [chunkList_foldl BATCH_SIZE (by decide) (processMessage tgt oracle)]
  rw [foldl_processMessage_processed]
  simp

unseal chunkList in
/-- Claim C1 counterexample: a pass captured for target "ha" is still merged
after the selection moved to "sh" — the merge writes the "ha"-translation
"Sannu" as the message's active `translatedText` even though "sh" is current,
because the merge never checks the current target language. -/
theorem stale_discard_cex :
    (mergedAfterPass "ha" "sh" staleMsgs emptyCache staleOracle).map Message.translatedText
        = [some "Sannu"]
      ∧ ("sh" : String) ≠ "ha"
      ∧ freshResult staleOracle "ha" staleMsg = "Sannu" :=
  ⟨by decide, by decide, by decide⟩

/-- Claim C1 (amended): if the target language changes while a refresh pass is
in flight, the pass's results are NOT discarded on arrival.  The merged list
is independent of the current selection, and every candidate of the
superseded pass ends up carrying that pass's translation as its active
`translatedText`, whatever the newer selection is. -/
theorem stale_results_applied (passTarget curA curB : String) (messages : List Message)
    (c : Cache) (oracle : Oracle) (m : Message)
    (hids : (messages.map Message.id).Nodup)
    (hkeys : keyConsistent (candidates messages passTarget) passTarget)
    (hm : m ∈ messages) (hcand : isCandidate passTarget m = true) :
    mergedAfterPass passTarget curA messages c oracle
        = mergedAfterPass passTarget curB messages c oracle
      ∧ findById m.id (mergedAfterPass passTarget curA messages c oracle)
          = some { m with translatedText := some (expectedText c oracle passTarget m) } := by
  refine ⟨rfl, ?_⟩
  unfold mergedAfterPass
  rw [translateAllMessages_eq_map messages passTarget c oracle hids hkeys]
  have hfind := findById_map messages (passUpdate c oracle passTarget) m hm hids
    (fun m' => by
      unfold passUpdate
      by_cases h : isCandidate passTarget m' = true <;> simp [h])
  rw [hfind]
  unfold passUpdate
  rw [if_pos hcand]

/-- Witness for `stale_results_applied` on the concrete stale scenario. -/
theorem stale_results_applied_witness :
    ((staleMsgs.map Message.id).Nodup
        ∧ keyConsistent (candidates staleMsgs "ha") "ha"
        ∧ staleMsg ∈ staleMsgs
        ∧ isCandidate "ha" staleMsg = true)
      ∧ findById staleMsg.id (mergedAfterPass "ha" "sh" staleMsgs emptyCache staleOracle)
          = some { staleMsg with
              translatedText := some (expectedText emptyCache staleOracle "ha" staleMsg) } :=
  ⟨⟨by decide, by decide, by decide, by decide⟩,
   (stale_results_applied "ha" "sh" "en" staleMsgs emptyCache staleOracle staleMsg
      (by decide) (by decide) (by decide) (by decide)).2⟩

unseal chunkList in
/-- Claim C6 counterexample: the pass processes exactly `doneMsg` (id "2"),
although `skipMsg` has a different language and no translation (the claim
puts it in the candidate set) and although `doneMsg` already holds the
current target's translation (the claim excludes it). -/
theorem candidate_set_cex :
    (translateAllMessages [skipMsg, doneMsg] "ha" emptyCache candOracle).processed = ["2"]
      ∧ skipMsg.language ≠ "ha" ∧ skipMsg.translatedText = none
      ∧ doneMsg.translatedText = some (expectedText emptyCache candOracle "ha" doneMsg) :=
  ⟨by decide, by decide, by decide, by decide⟩

/-- Claim C6 (amended): the refresh pass requests a translation exactly for
the messages with non-empty transcription whose language differs from the
target; `translatedText` is never consulted by the filter, and with unique
ids every such message is requested exactly once and every other message not
at all. -/
theorem candidate_set_processed (messages : List Message) (tgt : String) (c : Cache)
    (oracle : Oracle) (hids : (messages.map Message.id).Nodup) :
    (translateAllMessages messages tgt c oracle).processed
        = (messages.filter
            (fun m => (m.transcription != "") && (m.language != tgt))).map Message.id
      ∧ ∀ m ∈ messages,
          ((translateAllMessages messages tgt c oracle).processed).count m.id
            = if isCandidate tgt m then 1 else 0 := by
  have hnd : ((candidates messages tgt).map Message.id).Nodup := by
    have hsub : (candidates messages tgt).Sublist messages := List.filter_sublist messages
    exact (hsub.map Message.id).nodup hids
  refine ⟨?_, ?_⟩
  · rw [translateAllMessages_processed]
    rfl
  · intro m hm
    rw [translateAllMessages_processed]
    by_cases hc : isCandidate tgt m = true
    · rw [hc, if_pos rfl]
      exact List.count_eq_one_of_mem hnd
        ((mem_candidates_ids_iff messages tgt hids m hm).mpr hc)
    · have hfalse : isCandidate tgt m = false := by
        cases h : isCandidate tgt m
        · rfl
        · exact absurd h hc
      rw [hfalse, if_neg (by simp)]
      exact List.count_eq_zero.mpr
        (fun h => hc ((mem_candidates_ids_iff messages tgt hids m hm).mp h))

/-- Witness for `candidate_set_processed` on the two-message scenario. -/
theorem candidate_set_processed_witness :
    (([skipMsg, doneMsg].map Message.id).Nodup)
      ∧ (translateAllMessages [skipMsg, doneMsg] "ha" emptyCache candOracle).processed
          = ([skipMsg, doneMsg].filter
              (fun m => (m.transcription != "") && (m.language != "ha"))).map Message.id :=
  ⟨by decide,
   (candidate_set_processed [skipMsg, doneMsg] "ha" emptyCache candOracle (by decide)).1⟩

/-- Claim C7: an external translation failure is local to its message and
non-fatal.  For a candidate whose request fails (and whose key is not in the
cache), the pass still completes with every message mapped through
`passUpdate` — so all other messages receive their own results — the failing
message's text degrades to its original transcription, the message is
requested exactly once in the pass (no retry), and the failing
`translateText` call itself returns the transcription, leaves the cache
unchanged, and issues exactly one external call instead of raising an
error. -/
theorem translation_failure_local (messages : List Message) (tgt : String) (c : Cache)
    (oracle : Oracle) (m : Message)
    (hids : (messages.map Message.id).Nodup)
    (hkeys : keyConsistent (candidates messages tgt) tgt)
    (hm : m ∈ messages) (hcand : isCandidate tgt m = true)
    (hfail : oracle m.transcription m.language tgt = FetchOutcome.fail)
    (hmiss : truthy (c (keyOf tgt m)) = false) :
    (translateAllMessages messages tgt c oracle).updatedMessages
        = messages.map (passUpdate c oracle tgt)
      ∧ passUpdate c oracle tgt m = { m with translatedText := some m.transcription }
      ∧ ((translateAllMessages messages tgt c oracle).processed).count m.id = 1
      ∧ translateText c m.transcription m.language tgt FetchOutcome.fail
          = ⟨m.transcription, c, 1⟩ := by
  have hnd : ((candidates messages tgt).map Message.id).Nodup := by
    have hsub : (candidates messages tgt).Sublist messages := List.filter_sublist messages
    exact (hsub.map Message.id).nodup hids
  have hexp : expectedText c oracle tgt m = m.transcription := by
    rcases (truthy_eq_false_iff _).mp hmiss with h | h
    · unfold expectedText
      rw [h]
      unfold freshResult
      rw [hfail]
    · unfold expectedText
      rw [h]
      simp [freshResult, hfail]
  refine ⟨translateAllMessages_eq_map messages tgt c oracle hids hkeys, ?_, ?_, ?_⟩
  · unfold passUpdate
    rw [if_pos hcand, hexp]
  · rw [translateAllMessages_processed]
    exact List.count_eq_one_of_mem hnd
      ((mem_candidates_ids_iff messages tgt hids m hm).mpr hcand)
  · have hsc : cacheLookup c m.transcription m.language tgt = c (keyOf tgt m) := rfl
    rcases (truthy_eq_false_iff _).mp hmiss with h | h
    · unfold translateText
      rw [hsc, h]
      rfl
    · unfold translateText
      rw [hsc, h]
      simp [translateFetch]

/-- Witness for `translation_failure_local` on a concrete failing request. -/
theorem translation_failure_local_witness :
    (([failMsg].map Message.id).Nodup
        ∧ keyConsistent (candidates [failMsg] "ha") "ha"
        ∧ failMsg ∈ [failMsg]
        ∧ isCandidate "ha" failMsg = true
        ∧ failOracle failMsg.transcription failMsg.language "ha" = FetchOutcome.fail
        ∧ truthy (emptyCache (keyOf "ha" failMsg)) = false)
      ∧ passUpdate emptyCache failOracle "ha" failMsg
          = { failMsg with translatedText := some failMsg.transcription } :=
  ⟨⟨by decide, by decide, by decide, by decide, by decide, by decide⟩,
   (translation_failure_local [failMsg] "ha" emptyCache failOracle failMsg
      (by decide) (by decide) (by decide) (by decide) (by decide) (by decide)).2.1⟩

theorem issueCount_append (a b : List Event) :
    issueCount (a ++ b) = issueCount a + issueCount b := by
  induction a with
  | nil => simp [issueCount]
  | cons e rest ih =>
    cases e <;> simp [issueCount, ih] <;> omega

theorem completeCount_append (a b : List Event) :
    completeCount (a ++ b) = completeCount a + completeCount b := by
  induction a with
  | nil => simp [completeCount]
  | cons e rest ih =>
    cases e <;> simp [completeCount, ih] <;> omega

theorem counts_of_all_issue (p : List Event)
    (h : ∀ e ∈ p, ∃ s, e = Event.issue s) :
    completeCount p = 0 ∧ issueCount p = p.length := by
  induction p with
  | nil => exact ⟨rfl, rfl⟩
  | cons e rest ih =>
    rcases h e (List.mem_cons_self e rest) with ⟨s, rfl⟩
    have hr := ih (fun e' he' => h e' (List.mem_cons_of_mem _ he'))
    simp [issueCount, completeCount, hr.1, hr.2]

theorem counts_of_all_complete (p : List Event)
    (h : ∀ e ∈ p, ∃ s, e = Event.complete s) :
    issueCount p = 0 ∧ completeCount p = p.length := by
  induction p with
  | nil => exact ⟨rfl, rfl⟩
  | cons e rest ih =>
    rcases h e (List.mem_cons_self e rest) with ⟨s, rfl⟩
    have hr := ih (fun e' he' => h e' (List.mem_cons_of_mem _ he'))
    simp [issueCount, completeCount, hr.1, hr.2]

theorem batchTrace_issueCount (b : List Message) :
    issueCount (batchTrace b) = b.length := by
  unfold batchTrace
  rw [issueCount_append]
  have h1 := counts_of_all_issue (b.map (fun m => Event.issue m.id))
    (fun e he => by
      rcases List.mem_map.mp he with ⟨m, _, rfl⟩
      exact ⟨m.id, rfl⟩)
  have h2 := counts_of_all_complete (b.map (fun m => Event.complete m.id))
    (fun e he => by
      rcases List.mem_map.mp he with ⟨m, _, rfl⟩
      exact ⟨m.id, rfl⟩)
  rw [h1.2, h2.1, List.length_map]
  omega

theorem batchTrace_completeCount (b : List Message) :
    completeCount (batchTrace b) = b.length := by
  unfold batchTrace
  rw [completeCount_append]
  have h1 := counts_of_all_issue (b.map (fun m => Event.issue m.id))
    (fun e he => by
      rcases List.mem_map.mp he with ⟨m, _, rfl⟩
      exact ⟨m.id, rfl⟩)
  have h2 := counts_of_all_complete (b.map (fun m => Event.complete m.id))
    (fun e he => by
      rcases List.mem_map.mp he with ⟨m, _, rfl⟩
      exact ⟨m.id, rfl⟩)
  rw [h1.1, h2.2, List.length_map]
  omega

/-- Every initial segment of a single batch's trace has at least as many
issues as completions, and never more than the batch size outstanding. -/
theorem batchTrace_seg_bound (b : List Message) (p s : List Event)
    (h : p ++ s = batchTrace b) :
    completeCount p ≤ issueCount p ∧ issueCount p - completeCount p ≤ b.length := by
  unfold batchTrace at h
  rcases List.append_eq_append_iff.mp h with ⟨a', ha1, _ha2⟩ | ⟨c', hc1, hc2⟩
  · have hall : ∀ e ∈ p, ∃ s', e = Event.issue s' := by
      intro e he
      have : e ∈ b.map (fun m => Event.issue m.id) := by
        rw [ha1]
        exact List.mem_append.mpr (Or.inl he)
      rcases List.mem_map.mp this with ⟨m, _, rfl⟩
      exact ⟨m.id, rfl⟩
    have hc := counts_of_all_issue p hall
    have hlen : p.length ≤ b.length := by
      have := congrArg List.length ha1
      simp only [List.length_map, List.length_append] at this
      omega
    rw [hc.1, hc.2]
    omega
  · have hall : ∀ e ∈ c', ∃ s', e = Event.complete s' := by
      intro e he
      have : e ∈ b.map (fun m => Event.complete m.id) := by
        rw [hc2]
        exact List.mem_append.mpr (Or.inl he)
      rcases List.mem_map.mp this with ⟨m, _, rfl⟩
      exact ⟨m.id, rfl⟩
    have hcc := counts_of_all_complete c' hall
    have hclen : c'.length ≤ b.length := by
      have := congrArg List.length hc2
      simp only [List.length_map, List.length_append] at this
      omega
    subst hc1
    rw [issueCount_append, completeCount_append]
    have h1 := counts_of_all_issue (b.map (fun m => Event.issue m.id))
      (fun e he => by
        rcases List.mem_map.mp he with ⟨m, _, rfl⟩
        exact ⟨m.id, rfl⟩)
    rw [h1.1, h1.2, hcc.1, hcc.2, List.length_map]
    omega

/-- Every initial segment of a multi-batch trace is issue-dominant and has at
most `n` requests outstanding, provided each batch holds at most `n`
messages. -/
theorem tracesOf_bound (n : Nat) :
    ∀ (L : List (List Message)), (∀ b ∈ L, b.length ≤ n) →
      ∀ (p s : List Event), p ++ s = tracesOf L →
        completeCount p ≤ issueCount p ∧ issueCount p - completeCount p ≤ n := by
  intro L
  induction L with
  | nil =>
    intro _ p s h
    simp only [tracesOf] at h
    have hp : p = [] := by
      cases p with
      | nil => rfl
      | cons e r => simp at h
    subst hp
    exact ⟨Nat.le_refl 0, by simp [issueCount, completeCount]⟩
  | cons b rest ih =>
    intro hL p s h
    simp only [tracesOf] at h
    rcases List.append_eq_append_iff.mp h with ⟨a', ha1, _⟩ | ⟨c', hc1, hc2⟩
    · have hb := batchTrace_seg_bound b p a' ha1.symm
      have hlen := hL b (List.mem_cons_self b rest)
      exact ⟨hb.1, Nat.le_trans hb.2 hlen⟩
    · have hc := ih (fun b' hb' => hL b' (List.mem_cons_of_mem _ hb')) c' s hc2.symm
      subst hc1
      rw [issueCount_append, completeCount_append,
        batchTrace_issueCount, batchTrace_completeCount]
      omega

/-- Any list of whole batches is balanced: every issued request of those
batches has completed. -/
theorem tracesOf_balanced (L : List (List Message)) :
    issueCount (tracesOf L) = completeCount (tracesOf L) := by
  induction L with
  | nil => rfl
  | cons b rest ih =>
    simp only [tracesOf]
    rw [issueCount_append, completeCount_append,
      batchTrace_issueCount, batchTrace_completeCount, ih]

unseal chunkList in
/-- Claim C2 counterexample: the in-flight bound does not cover all
translation requests during a pass.  With four untranslated messages, the
render that follows the target change fires four background fetches (one per
message, via `getTranslatedText`); at the instant just after the refresh pass
has issued its first batch of three, none of those fetches has completed
yet, so seven translation requests are in flight — more than `BATCH_SIZE`.
The instant is exhibited as an initial segment of `combinedTrace`. -/
theorem batch_bound_cex :
    (renderTrace boundMsgs "ha" ++ (passTrace boundMsgs "ha").take 3)
        ++ (passTrace boundMsgs "ha").drop 3 = combinedTrace boundMsgs "ha"
      ∧ completeCount (renderTrace boundMsgs "ha" ++ (passTrace boundMsgs "ha").take 3) = 0
      ∧ issueCount (renderTrace boundMsgs "ha" ++ (passTrace boundMsgs "ha").take 3)
          = 4 + BATCH_SIZE
      ∧ BATCH_SIZE < 4 + BATCH_SIZE :=
  ⟨by decide, by decide, by decide, by decide⟩

/-- Claim C2 (amended): within the refresh pass's own batched requests, along
every initial segment of the pass's request trace,
completions never outnumber issues and at most `BATCH_SIZE` (3) requests are
outstanding; every batch the pass forms has at most `BATCH_SIZE` members;
and at every batch boundary the trace is balanced — batch `N+1`'s requests
are only issued after every request of batch `N` has completed. -/
theorem batch_bound (messages : List Message) (tgt : String) (pre suf : List Event)
    (hsplit : pre ++ suf = passTrace messages tgt) :
    completeCount pre ≤ issueCount pre
      ∧ issueCount pre - completeCount pre ≤ BATCH_SIZE
      ∧ (∀ b ∈ chunkList BATCH_SIZE (candidates messages tgt), b.length ≤ BATCH_SIZE)
      ∧ (∀ k, issueCount (tracesOf ((chunkList BATCH_SIZE (candidates messages tgt)).take k))
            = completeCount (tracesOf ((chunkList BATCH_SIZE (candidates messages tgt)).take k))) := by
  have hlen := chunkList_length_le BATCH_SIZE (candidates messages tgt)
  have hb := tracesOf_bound BATCH_SIZE (chunkList BATCH_SIZE (candidates messages tgt))
    hlen pre suf hsplit
  exact ⟨hb.1, hb.2, hlen, fun _ => tracesOf_balanced _⟩

/-- Witness for `batch_bound` at the full trace of a four-message pass. -/
theorem batch_bound_witness :
    passTrace boundMsgs "ha" ++ [] = passTrace boundMsgs "ha"
      ∧ completeCount (passTrace boundMsgs "ha") ≤ issueCount (passTrace boundMsgs "ha")
      ∧ issueCount (passTrace boundMsgs "ha") - completeCount (passTrace boundMsgs "ha")
          ≤ BATCH_SIZE :=
  ⟨List.append_nil _,
   (batch_bound boundMsgs "ha" (passTrace boundMsgs "ha") [] (List.append_nil _)).1,
   (batch_bound boundMsgs "ha" (passTrace boundMsgs "ha") [] (List.append_nil _)).2.1⟩

/-- Claim C5: for a message already in the target language, the identity
shortcut applies everywhere the source handles it: `getTranslatedText`
displays the transcription itself and fires no translation call; the refresh
pass's filter excludes the message (so the pass performs no cache or network
activity for it); and the older sequential loop sets
`translatedText := transcription` with zero external calls. -/
theorem identity_shortcut (m : Message) (tgt : String)
    (oracle : String → String → FetchOutcome) (hlang : m.language = tgt) :
    getTranslatedText tgt m = ⟨m.transcription, false⟩
      ∧ isCandidate tgt m = false
      ∧ (truthy m.translatedText = false → m.transcription ≠ "" →
          pageProcessOne tgt oracle m
            = ({ m with translatedText := some m.transcription }, 0)) := by
  refine ⟨?_, ?_, ?_⟩
  · unfold getTranslatedText
    rw [if_pos (Or.inr hlang)]
  · unfold isCandidate
    rw [hlang]
    simp
  · intro htr hne
    unfold pageProcessOne
    rw [htr]
    have hbe : (m.transcription == "") = false := by
      simp [hne]
    rw [hbe]
    simp only [Bool.or_self, Bool.false_eq_true, if_false]
    rw [if_pos hlang]

/-- Witness for `identity_shortcut`: an English message rendered while the
target language is English. -/
theorem identity_shortcut_witness :
    (Message.mk "1" "amina" "Hello" "en" none).language = "en"
      ∧ truthy (Message.mk "1" "amina" "Hello" "en" none).translatedText = false
      ∧ (Message.mk "1" "amina" "Hello" "en" none).transcription ≠ ""
      ∧ getTranslatedText "en" (Message.mk "1" "amina" "Hello" "en" none)
          = ⟨(Message.mk "1" "amina" "Hello" "en" none).transcription, false⟩ :=
  ⟨by decide, by decide, by decide,
   (identity_shortcut (Message.mk "1" "amina" "Hello" "en" none) "en"
      (fun _ _ => FetchOutcome.fail) (by decide)).1⟩

/-- Claim C9: the translate route validates before calling the model — any
missing or empty `transcript`, `sourceLanguage` or `targetLanguage` yields
status 400 with an error payload and zero model calls; a body that fails to
parse yields status 500 with an error payload and zero model calls; and a
model exception on a valid body yields status 500 with an error payload
instead of propagating. -/
theorem translate_route_error_handling (b bGood : TranslateRequestBody)
    (model : ModelOutcome)
    (hbad : truthy b.transcript = false ∨ truthy b.sourceLanguage = false
      ∨ truthy b.targetLanguage = false)
    (hgood : truthy bGood.transcript = true ∧ truthy bGood.sourceLanguage = true
      ∧ truthy bGood.targetLanguage = true) :
    ((translateRoutePOST (some b) model).status = 400
        ∧ (translateRoutePOST (some b) model).modelCalls = 0
        ∧ (translateRoutePOST (some b) model).error.isSome = true)
      ∧ ((translateRoutePOST none model).status = 500
        ∧ (translateRoutePOST none model).modelCalls = 0
        ∧ (translateRoutePOST none model).error.isSome = true)
      ∧ ((translateRoutePOST (some bGood) ModelOutcome.exn).status = 500
        ∧ (translateRoutePOST (some bGood) ModelOutcome.exn).modelCalls = 1
        ∧ (translateRoutePOST (some bGood) ModelOutcome.exn).error.isSome = true) := by
  refine ⟨?_, ?_, ?_⟩
  · simp only [translateRoutePOST]
    rw [if_pos hbad]
    exact ⟨rfl, rfl, rfl⟩
  · exact ⟨rfl, rfl, rfl⟩
  · simp only [translateRoutePOST]
    have hcond : ¬ (truthy bGood.transcript = false ∨ truthy bGood.sourceLanguage = false
        ∨ truthy bGood.targetLanguage = false) := by
      rw [hgood.1, hgood.2.1, hgood.2.2]
      simp
    rw [if_neg hcond]
    exact ⟨rfl, rfl, rfl⟩

/-- Witness for `translate_route_error_handling`: an empty transcript is
rejected, a good body with a throwing model is answered with 500. -/
theorem translate_route_error_handling_witness :
    (truthy (TranslateRequestBody.mk (some "") (some "en") (some "ha")).transcript = false
        ∨ truthy (TranslateRequestBody.mk (some "") (some "en") (some "ha")).sourceLanguage = false
        ∨ truthy (TranslateRequestBody.mk (some "") (some "en") (some "ha")).targetLanguage = false)
      ∧ (truthy (TranslateRequestBody.mk (some "Hi") (some "en") (some "ha")).transcript = true
        ∧ truthy (TranslateRequestBody.mk (some "Hi") (some "en") (some "ha")).sourceLanguage = true
        ∧ truthy (TranslateRequestBody.mk (some "Hi") (some "en") (some "ha")).targetLanguage = true)
      ∧ (translateRoutePOST (some (TranslateRequestBody.mk (some "") (some "en") (some "ha")))
          (ModelOutcome.ok (some "x"))).status = 400
      ∧ (translateRoutePOST (some (TranslateRequestBody.mk (some "") (some "en") (some "ha")))
          (ModelOutcome.ok (some "x"))).modelCalls = 0 :=
  ⟨by decide, by decide,
   ((translate_route_error_handling (TranslateRequestBody.mk (some "") (some "en") (some "ha"))
      (TranslateRequestBody.mk (some "Hi") (some "en") (some "ha"))
      (ModelOutcome.ok (some "x")) (by decide) (by decide)).1).1,
   ((translate_route_error_handling (TranslateRequestBody.mk (some "") (some "en") (some "ha"))
      (TranslateRequestBody.mk (some "Hi") (some "en") (some "ha"))
      (ModelOutcome.ok (some "x")) (by decide) (by decide)).1).2.1⟩

/-- Claim C10: on the client with an initialised database, a call with an
empty sender name or empty transcription returns `null`, records an error,
and leaves the document store unchanged, whatever `addDoc` would have done —
even though the message data model itself admits an empty sender name. -/
theorem save_transcription_guard (st : FirebaseState) (data : SaveInput)
    (outcome : AddDocOutcome)
    (hempty : data.senderName = "" ∨ data.transcription = "") :
    (saveTranscription true true st data outcome).1 = none
      ∧ ((saveTranscription true true st data outcome).2).savedDocs = st.savedDocs
      ∧ ((saveTranscription true true st data outcome).2).errorMsg
          = some "Sender name and transcription are required"
      ∧ (Message.mk "1" "" "Hi" "en" none).senderName = "" := by
  unfold saveTranscription
  rw [if_neg (by simp), if_neg (by simp), if_pos hempty]
  exact ⟨rfl, rfl, rfl, rfl⟩

/-- Witness for `save_transcription_guard`: an empty sender name with a
successful `addDoc` available is still rejected. -/
theorem save_transcription_guard_witness :
    ((SaveInput.mk "" "Hello" "en").senderName = ""
        ∨ (SaveInput.mk "" "Hello" "en").transcription = "")
      ∧ (saveTranscription true true (FirebaseState.mk [] none)
          (SaveInput.mk "" "Hello" "en") (AddDocOutcome.ok "d1")).1 = none
      ∧ ((saveTranscription true true (FirebaseState.mk [] none)
          (SaveInput.mk "" "Hello" "en") (AddDocOutcome.ok "d1")).2).savedDocs
          = (FirebaseState.mk [] none).savedDocs :=
  ⟨by decide,
   (save_transcription_guard (FirebaseState.mk [] none) (SaveInput.mk "" "Hello" "en")
      (AddDocOutcome.ok "d1") (by decide)).1,
   (save_transcription_guard (FirebaseState.mk [] none) (SaveInput.mk "" "Hello" "en")
      (AddDocOutcome.ok "d1") (by decide)).2.1⟩

end AudioTranslation
